import Mathlib

/-!
Shallow embedding of `src/single_byte.rs` (single-byte decoder/encoder of a
character-encoding conversion library).

The per-byte decode body, the worst-case buffer-size formulas and the encoder
stubs are translated directly from the source.  The streaming loop generated
by the `decoder_functions!` macro and the handle/source abstractions it uses
(`check_space_bmp`, `unread_handle.consumed()`, `destination_handle.write_*`)
are not part of the given source tree; they are modelled from the spec where
indicated.
-/

namespace EncodingC

/-- `DecoderResult` of the streaming protocol: why a decode call stopped. -/
inductive DecoderResult where
  | inputEmpty : DecoderResult
  | outputFull : DecoderResult
  | malformed : Nat → DecoderResult
deriving DecidableEq

/-- `EncoderResult` of the streaming protocol: why an encode call stopped. -/
inductive EncoderResult where
  | inputEmpty : EncoderResult
  | outputFull : EncoderResult
  | unmappable : Nat → EncoderResult
deriving DecidableEq

/-- A single-byte decoder owns a 128-entry table of UTF-16 code units
(`table: &'static [u16; 128]`), indexed by `byte - 0x80`; entry 0 means
"unmapped".  Entries are modelled as `Nat` (u16 values are below 2^16). -/
structure SingleByteDecoder where
  table : List Nat

/-- Source: `max_utf16_buffer_length(byte_length) = byte_length`. -/
def SingleByteDecoder.max_utf16_buffer_length (_d : SingleByteDecoder)
    (byte_length : Nat) : Nat :=
  byte_length

/-- Source: `max_utf8_buffer_length(byte_length) = byte_length * 3`. -/
def SingleByteDecoder.max_utf8_buffer_length (_d : SingleByteDecoder)
    (byte_length : Nat) : Nat :=
  byte_length * 3

/-- Source: `max_utf8_buffer_length_with_replacement(byte_length) = byte_length * 3`. -/
def SingleByteDecoder.max_utf8_buffer_length_with_replacement (_d : SingleByteDecoder)
    (byte_length : Nat) : Nat :=
  byte_length * 3

/-- The per-byte mapping of the decode body: ASCII identity below 0x80,
table lookup (`self.table[b as usize - 0x80]`) otherwise. -/
def mapByte (table : List Nat) (b : Nat) : Nat :=
  if b < 0x80 then b else table.getD (b - 0x80) 0

/-- A byte the decoder can map: ASCII, or a high byte with a nonzero entry. -/
def decodable (table : List Nat) (b : Nat) : Prop :=
  b < 0x80 ∨ table.getD (b - 0x80) 0 ≠ 0

instance (table : List Nat) (b : Nat) : Decidable (decodable table b) := by
  unfold decodable
  infer_instance

/-- Modelled from the spec: the streaming loop that `decoder_functions!`
generates around the per-byte body for a UTF-16 destination.  The macro and
the handle/source types are not under the given source tree, so the loop
follows the spec: report `InputEmpty` once all input is consumed; before
each byte check destination space (`check_space_bmp`: one UTF-16 unit) and
report `OutputFull` with the counts so far when there is none; the per-byte
body (bytes below 0x80 written unchanged, high bytes looked up in the table,
a zero entry stopping with `Malformed(1)` and the count of bytes consumed up
to and excluding the offending byte) is translated from the source.
Arguments: remaining input, destination capacity, bytes consumed so far,
units written so far, output written so far (reversed). -/
def decodeUtf16Go (table : List Nat) :
    List Nat → Nat → Nat → Nat → List Nat → DecoderResult × Nat × Nat × List Nat
  | [], _, consumed, written, out => (.inputEmpty, consumed, written, out.reverse)
  | b :: rest, dstCap, consumed, written, out =>
    if written < dstCap then
      if b < 0x80 then
        decodeUtf16Go table rest dstCap (consumed + 1) (written + 1) (b :: out)
      else if table.getD (b - 0x80) 0 = 0 then
        (.malformed 1, consumed, written, out.reverse)
      else
        decodeUtf16Go table rest dstCap (consumed + 1) (written + 1)
          (table.getD (b - 0x80) 0 :: out)
    else
      (.outputFull, consumed, written, out.reverse)

/-- The decode call with a UTF-16 destination of the given capacity.
Returns the stop reason, bytes consumed, units written, and the output. -/
def SingleByteDecoder.decode_to_utf16 (d : SingleByteDecoder) (src : List Nat)
    (dstCap : Nat) : DecoderResult × Nat × Nat × List Nat :=
  decodeUtf16Go d.table src dstCap 0 0 []

/-- UTF-8 code units of a BMP scalar value (1 to 3 bytes). -/
def utf8Units (c : Nat) : List Nat :=
  if c < 0x80 then [c]
  else if c < 0x800 then [0xC0 + c / 64, 0x80 + c % 64]
  else [0xE0 + c / 4096, 0x80 + (c / 64) % 64, 0x80 + c % 64]

/-- Modelled from the spec: the streaming loop for a UTF-8 destination.
As in `decodeUtf16Go` the loop itself is absent from the given source;
`check_space_bmp` for a UTF-8 destination demands room for a worst-case
BMP character (3 bytes) before the next byte is processed. -/
def decodeUtf8Go (table : List Nat) :
    List Nat → Nat → Nat → Nat → List Nat → DecoderResult × Nat × Nat × List Nat
  | [], _, consumed, written, out => (.inputEmpty, consumed, written, out.reverse)
  | b :: rest, dstCap, consumed, written, out =>
    if written + 3 ≤ dstCap then
      if b < 0x80 then
        decodeUtf8Go table rest dstCap (consumed + 1) (written + 1) (b :: out)
      else if table.getD (b - 0x80) 0 = 0 then
        (.malformed 1, consumed, written, out.reverse)
      else
        decodeUtf8Go table rest dstCap (consumed + 1)
          (written + (utf8Units (table.getD (b - 0x80) 0)).length)
          ((utf8Units (table.getD (b - 0x80) 0)).reverse ++ out)
    else
      (.outputFull, consumed, written, out.reverse)

/-- The decode call with a UTF-8 destination of the given capacity. -/
def SingleByteDecoder.decode_to_utf8 (d : SingleByteDecoder) (src : List Nat)
    (dstCap : Nat) : DecoderResult × Nat × Nat × List Nat :=
  decodeUtf8Go d.table src dstCap 0 0 []

/-- A single-byte encoder owns the same 128-entry table. -/
structure SingleByteEncoder where
  table : List Nat

/-- Source: returns `0 // TODO`. -/
def SingleByteEncoder.max_buffer_length_from_utf16 (_e : SingleByteEncoder)
    (_u16_length : Nat) : Nat :=
  0

/-- Source: returns `0 // TODO`. -/
def SingleByteEncoder.max_buffer_length_from_utf8 (_e : SingleByteEncoder)
    (_byte_length : Nat) : Nat :=
  0

/-- Source: `encode_from_utf16` is a stub that ignores its input and
destination and returns `(EncoderResult::InputEmpty, 0, 0)` (`// XXX`),
writing nothing.  The destination is modelled by its capacity and the final
component is the (empty) list of bytes written. -/
def SingleByteEncoder.encode_from_utf16 (_e : SingleByteEncoder) (_src : List Nat)
    (_dstCap : Nat) (_last : Bool) : EncoderResult × Nat × Nat × List Nat :=
  (.inputEmpty, 0, 0, [])

/-- Source: `encode_from_utf8` is the same stub as `encode_from_utf16`. -/
def SingleByteEncoder.encode_from_utf8 (_e : SingleByteEncoder) (_src : List Nat)
    (_dstCap : Nat) (_last : Bool) : EncoderResult × Nat × Nat × List Nat :=
  (.inputEmpty, 0, 0, [])

/-- An ISO-8859-7-like sample table for witnesses: byte 0xA0 maps to U+00A0
(table index 0x20) and every other high byte, 0xAA among them, is unmapped. -/
def sampleTable : List Nat :=
  (List.replicate 128 0).set 0x20 0xA0

/-- An all-zero table: every high byte is unmapped. -/
def zeroTable : List Nat :=
  List.replicate 128 0

/-- Processing a run of decodable bytes advances the UTF-16 loop over them,
mapping each one, when the destination has space for the whole run. -/
theorem decodeUtf16Go_run (table : List Nat) (p : List Nat) :
    ∀ (rest : List Nat) (cap consumed written : Nat) (out : List Nat),
      (∀ x ∈ p, decodable table x) → written + p.length ≤ cap →
      decodeUtf16Go table (p ++ rest) cap consumed written out =
        decodeUtf16Go table rest cap (consumed + p.length) (written + p.length)
          ((p.map (mapByte table)).reverse ++ out) := by
  induction p with
  | nil =>
    intro rest cap consumed written out _ _
    simp
  | cons b p ih =>
    intro rest cap consumed written out hdec hcap
    have hb : decodable table b := hdec b (List.mem_cons_self b p)
    simp only [List.length_cons] at hcap
    have hsp : written < cap := by omega
    have hrest : ∀ x ∈ p, decodable table x := by
      intro x hx
      exact hdec x (List.mem_cons_of_mem b hx)
    rcases Decidable.em (b < 0x80) with hascii | hhigh
    · show decodeUtf16Go table (b :: (p ++ rest)) cap consumed written out = _
      rw [decodeUtf16Go, if_pos hsp, if_pos hascii,
        ih rest cap (consumed + 1) (written + 1) (b :: out) hrest (by omega)]
      simp only [List.map_cons, List.reverse_cons, List.append_assoc,
        List.singleton_append, List.length_cons, mapByte, if_pos hascii]
      congr 1 <;> omega
    · have hmap : table.getD (b - 0x80) 0 ≠ 0 := hb.resolve_left hhigh
      show decodeUtf16Go table (b :: (p ++ rest)) cap consumed written out = _
      rw [decodeUtf16Go, if_pos hsp, if_neg hhigh, if_neg hmap,
        ih rest cap (consumed + 1) (written + 1) (table.getD (b - 0x80) 0 :: out)
          hrest (by omega)]
      simp only [List.map_cons, List.reverse_cons, List.append_assoc,
        List.singleton_append, List.length_cons, mapByte, if_neg hhigh]
      congr 1 <;> omega

/-- A BMP scalar takes at most 3 UTF-8 code units. -/
theorem utf8Units_length_le (c : Nat) : (utf8Units c).length ≤ 3 := by
  unfold utf8Units
  split_ifs <;> simp

/-- The UTF-8 loop consumes a run of decodable bytes to the end and reports
`InputEmpty` when the destination has 3 bytes of room per input byte. -/
theorem decodeUtf8Go_runs_to_end (table : List Nat) (p : List Nat) :
    ∀ (cap consumed written : Nat) (out : List Nat),
      (∀ x ∈ p, decodable table x) → written + 3 * p.length ≤ cap →
      (decodeUtf8Go table p cap consumed written out).1 = .inputEmpty := by
  induction p with
  | nil =>
    intro cap consumed written out _ _
    rfl
  | cons b p ih =>
    intro cap consumed written out hdec hcap
    have hb : decodable table b := hdec b (List.mem_cons_self b p)
    simp only [List.length_cons] at hcap
    have hsp : written + 3 ≤ cap := by omega
    have hrest : ∀ x ∈ p, decodable table x := by
      intro x hx
      exact hdec x (List.mem_cons_of_mem b hx)
    rcases Decidable.em (b < 0x80) with hascii | hhigh
    · rw [decodeUtf8Go, if_pos hsp, if_pos hascii]
      exact ih cap (consumed + 1) (written + 1) (b :: out) hrest (by omega)
    · have hmap : table.getD (b - 0x80) 0 ≠ 0 := hb.resolve_left hhigh
      rw [decodeUtf8Go, if_pos hsp, if_neg hhigh, if_neg hmap]
      have hlen := utf8Units_length_le (table.getD (b - 0x80) 0)
      exact ih cap (consumed + 1)
        (written + (utf8Units (table.getD (b - 0x80) 0)).length)
        ((utf8Units (table.getD (b - 0x80) 0)).reverse ++ out) hrest (by omega)

/-- When the UTF-16 loop stops with `Malformed`, the payload is 1 and the
byte left unconsumed at relative position `c - consumed` of the remaining
input is a high byte with a zero table entry. -/
theorem decodeUtf16Go_malformed_shape (table : List Nat) (p : List Nat) :
    ∀ (cap consumed written : Nat) (out : List Nat) (k c w : Nat) (o : List Nat),
      decodeUtf16Go table p cap consumed written out = (.malformed k, c, w, o) →
      k = 1 ∧ ∃ i b, c = consumed + i ∧ p.get? i = some b ∧ 0x80 ≤ b ∧
        table.getD (b - 0x80) 0 = 0 := by
  induction p with
  | nil =>
    intro cap consumed written out k c w o h
    rw [decodeUtf16Go] at h
    exact absurd (congrArg Prod.fst h) (fun hx => DecoderResult.noConfusion hx)
  | cons b p ih =>
    intro cap consumed written out k c w o h
    rw [decodeUtf16Go] at h
    by_cases hsp : written < cap
    · rw [if_pos hsp] at h
      by_cases hascii : b < 0x80
      · rw [if_pos hascii] at h
        obtain ⟨hk, i, b', hc, hget, hb', hz⟩ :=
          ih cap (consumed + 1) (written + 1) (b :: out) k c w o h
        exact ⟨hk, i + 1, b', by omega, by simpa using hget, hb', hz⟩
      · by_cases hz : table.getD (b - 0x80) 0 = 0
        · rw [if_neg hascii, if_pos hz] at h
          have hk : DecoderResult.malformed 1 = DecoderResult.malformed k :=
            congrArg Prod.fst h
          have hc : consumed = c := congrArg (fun q => q.2.1) h
          injection hk with hk
          exact ⟨hk.symm, 0, b, by omega, rfl, by omega, hz⟩
        · rw [if_neg hascii, if_neg hz] at h
          obtain ⟨hk, i, b', hc, hget, hb', hz'⟩ :=
            ih cap (consumed + 1) (written + 1) (table.getD (b - 0x80) 0 :: out)
              k c w o h
          exact ⟨hk, i + 1, b', by omega, by simpa using hget, hb', hz'⟩
    · rw [if_neg hsp] at h
      exact absurd (congrArg Prod.fst h) (fun hx => DecoderResult.noConfusion hx)

/-- C1: after any run `p` of decodable bytes, a high byte with a zero table
entry stops the decode with `Malformed`, and the reported consumed count is
exactly `p.length`, excluding the malformed byte itself; for a single-byte
input the consumed count is 0. -/
theorem malformed_byte_not_consumed (table p : List Nat) (b : Nat) (rest : List Nat)
    (cap : Nat) (hp : ∀ x ∈ p, decodable table x) (hb : 0x80 ≤ b)
    (hz : table.getD (b - 0x80) 0 = 0) (hcap : p.length < cap) :
    (decodeUtf16Go table (p ++ b :: rest) cap 0 0 []).1 = .malformed 1 ∧
    (decodeUtf16Go table (p ++ b :: rest) cap 0 0 []).2.1 = p.length ∧
    SingleByteDecoder.decode_to_utf16 ⟨table⟩ [b] 1 = (.malformed 1, 0, 0, []) := by
  have hrun := decodeUtf16Go_run table p (b :: rest) cap 0 0 [] hp (by omega)
  have hhigh : ¬ b < 0x80 := by omega
  have hstep : decodeUtf16Go table (b :: rest) cap (0 + p.length) (0 + p.length)
      ((p.map (mapByte table)).reverse ++ []) =
      (.malformed 1, 0 + p.length, 0 + p.length,
        ((p.map (mapByte table)).reverse ++ []).reverse) := by
    rw [decodeUtf16Go, if_pos (by omega : 0 + p.length < cap), if_neg hhigh, if_pos hz]
  refine ⟨?_, ?_, ?_⟩
  · rw [hrun, hstep]
  · rw [hrun, hstep]
    simp
  · rw [SingleByteDecoder.decode_to_utf16, decodeUtf16Go,
      if_pos (by decide : (0 : Nat) < 1), if_neg hhigh, if_pos hz]
    simp

/-- C1 witness: table mapping only 0xA0, input `0x41` then the unmapped byte
0xAA, capacity 2. -/
theorem malformed_byte_not_consumed_witness :
    (∀ x ∈ ([0x41] : List Nat), decodable sampleTable x) ∧ 0x80 ≤ 0xAA ∧
    sampleTable.getD (0xAA - 0x80) 0 = 0 ∧ ([0x41] : List Nat).length < 2 ∧
    ((decodeUtf16Go sampleTable ([0x41] ++ 0xAA :: []) 2 0 0 []).1 = .malformed 1 ∧
      (decodeUtf16Go sampleTable ([0x41] ++ 0xAA :: []) 2 0 0 []).2.1 =
        ([0x41] : List Nat).length ∧
      SingleByteDecoder.decode_to_utf16 ⟨sampleTable⟩ [0xAA] 1 =
        (.malformed 1, 0, 0, [])) :=
  ⟨by decide, by decide, by decide, by decide,
    malformed_byte_not_consumed sampleTable [0x41] 0xAA [] 2 (by decide) (by decide)
      (by decide) (by decide)⟩

/-- C2: the decoder's worst-case output-size formulas satisfy
`max_utf16_buffer_length n = n`, `max_utf8_buffer_length n = 3 * n` and
`max_utf8_buffer_length_with_replacement n = 3 * n` for every `n`. -/
theorem decoder_max_buffer_length_formulas (d : SingleByteDecoder) (n : Nat) :
    d.max_utf16_buffer_length n = n ∧ d.max_utf8_buffer_length n = 3 * n ∧
    d.max_utf8_buffer_length_with_replacement n = 3 * n :=
  ⟨rfl, Nat.mul_comm n 3, Nat.mul_comm n 3⟩

/-- C3 (code evaluation): the encoder's buffer-size methods are `0 // TODO`
stubs, so at `u16_length = 1` (resp. `byte_length = 1`) they return 0, not 1
as the claim states. -/
theorem encoder_max_buffer_length_stub :
    SingleByteEncoder.max_buffer_length_from_utf16 ⟨sampleTable⟩ 1 = 0 ∧
    SingleByteEncoder.max_buffer_length_from_utf8 ⟨sampleTable⟩ 1 = 0 ∧
    (0 : Nat) ≠ 1 :=
  ⟨rfl, rfl, by decide⟩

/-- C4 (code evaluation): decoding the ASCII byte 0x41 writes the code unit
0x41 unchanged, but the encoder stub returns `(InputEmpty, 0, 0)` and writes
nothing instead of writing the byte 0x41 back. -/
theorem ascii_decode_identity_encode_stub :
    SingleByteDecoder.decode_to_utf16 ⟨sampleTable⟩ [0x41] 10 =
      (.inputEmpty, 1, 1, [0x41]) ∧
    SingleByteEncoder.encode_from_utf16 ⟨sampleTable⟩ [0x41] 10 true =
      (.inputEmpty, 0, 0, []) :=
  ⟨by decide, rfl⟩

/-- C5: a high byte whose table entry is nonzero decodes to exactly that one
UTF-16 code unit and is consumed. -/
theorem mapped_high_byte_decodes (table : List Nat) (b cap : Nat)
    (hb : 0x80 ≤ b) (hb2 : b ≤ 0xFF) (hm : table.getD (b - 0x80) 0 ≠ 0)
    (hcap : 1 ≤ cap) :
    SingleByteDecoder.decode_to_utf16 ⟨table⟩ [b] cap =
      (.inputEmpty, 1, 1, [table.getD (b - 0x80) 0]) := by
  have hhigh : ¬ b < 0x80 := by omega
  rw [SingleByteDecoder.decode_to_utf16, decodeUtf16Go,
    if_pos (by omega : 0 < cap), if_neg hhigh, if_neg hm, decodeUtf16Go]
  simp

/-- C5 witness: byte 0xA0 of the sample table decodes to U+00A0. -/
theorem mapped_high_byte_decodes_witness :
    0x80 ≤ 0xA0 ∧ 0xA0 ≤ 0xFF ∧ sampleTable.getD (0xA0 - 0x80) 0 ≠ 0 ∧ 1 ≤ 1 ∧
    SingleByteDecoder.decode_to_utf16 ⟨sampleTable⟩ [0xA0] 1 =
      (.inputEmpty, 1, 1, [sampleTable.getD (0xA0 - 0x80) 0]) :=
  ⟨by decide, by decide, by decide, by decide,
    mapped_high_byte_decodes sampleTable 0xA0 1 (by decide) (by decide) (by decide)
      (by decide)⟩

/-- C6 (code evaluation): decoding the mapped byte 0xA0 yields the code unit
0xA0, but the encoder stub writes no byte at all for that code unit, so
`encode(decode(b)) = b` fails for every mapped byte. -/
theorem round_trip_encoder_stub :
    SingleByteDecoder.decode_to_utf16 ⟨sampleTable⟩ [0xA0] 10 =
      (.inputEmpty, 1, 1, [0xA0]) ∧
    SingleByteEncoder.encode_from_utf16 ⟨sampleTable⟩ [0xA0] 10 true =
      (.inputEmpty, 0, 0, []) :=
  ⟨by decide, rfl⟩

/-- C7: decoding an all-decodable input of length `n` into a destination of
size `max_utf16_buffer_length n` (resp. `max_utf8_buffer_length n` for UTF-8
output) never reports `OutputFull`. -/
theorem decode_max_buffer_never_output_full (d : SingleByteDecoder) (src : List Nat)
    (h : ∀ x ∈ src, decodable d.table x) :
    (d.decode_to_utf16 src (d.max_utf16_buffer_length src.length)).1 ≠ .outputFull ∧
    (d.decode_to_utf8 src (d.max_utf8_buffer_length src.length)).1 ≠ .outputFull := by
  constructor
  · have hrun := decodeUtf16Go_run d.table src [] src.length 0 0 [] h (by omega)
    rw [List.append_nil] at hrun
    intro hx
    rw [SingleByteDecoder.decode_to_utf16, SingleByteDecoder.max_utf16_buffer_length,
      hrun, decodeUtf16Go] at hx
    exact DecoderResult.noConfusion hx
  · have hend := decodeUtf8Go_runs_to_end d.table src (src.length * 3) 0 0 [] h
      (by omega)
    intro hx
    rw [SingleByteDecoder.decode_to_utf8, SingleByteDecoder.max_utf8_buffer_length,
      hend] at hx
    exact DecoderResult.noConfusion hx

/-- C7 witness: the sample table on input `[0x41, 0xA0]`. -/
theorem decode_max_buffer_never_output_full_witness :
    (∀ x ∈ ([0x41, 0xA0] : List Nat),
      decodable (SingleByteDecoder.mk sampleTable).table x) ∧
    (((SingleByteDecoder.mk sampleTable).decode_to_utf16 [0x41, 0xA0]
        ((SingleByteDecoder.mk sampleTable).max_utf16_buffer_length
          ([0x41, 0xA0] : List Nat).length)).1 ≠ .outputFull ∧
      ((SingleByteDecoder.mk sampleTable).decode_to_utf8 [0x41, 0xA0]
        ((SingleByteDecoder.mk sampleTable).max_utf8_buffer_length
          ([0x41, 0xA0] : List Nat).length)).1 ≠ .outputFull) :=
  ⟨by decide,
    decode_max_buffer_never_output_full ⟨sampleTable⟩ [0x41, 0xA0] (by decide)⟩

/-- C8 (code evaluation): the encoder stub reports `InputEmpty` with 0 input
units consumed even on a two-unit input, so the consumed count at an
`InputEmpty` stop does not equal the input length; and it can never report
`Unmappable`. -/
theorem encode_stub_input_empty_consumed :
    SingleByteEncoder.encode_from_utf16 ⟨sampleTable⟩ [0x41, 0x42] 10 true =
      (.inputEmpty, 0, 0, []) ∧ (0 : Nat) ≠ 2 :=
  ⟨rfl, by decide⟩

/-- C9: with a destination of capacity 0, the decoder reports `OutputFull`
with 0 consumed and 0 written on any non-empty input, and `InputEmpty` on
empty input, for both the UTF-16 and the UTF-8 destination. -/
theorem decode_zero_capacity (d : SingleByteDecoder) (b : Nat) (rest : List Nat) :
    d.decode_to_utf16 (b :: rest) 0 = (.outputFull, 0, 0, []) ∧
    d.decode_to_utf16 [] 0 = (.inputEmpty, 0, 0, []) ∧
    d.decode_to_utf8 (b :: rest) 0 = (.outputFull, 0, 0, []) ∧
    d.decode_to_utf8 [] 0 = (.inputEmpty, 0, 0, []) := by
  refine ⟨?_, rfl, ?_, rfl⟩
  · rw [SingleByteDecoder.decode_to_utf16, decodeUtf16Go]
    simp
  · rw [SingleByteDecoder.decode_to_utf8, decodeUtf8Go]
    simp

/-- C10 counterexample: on the single unmapped byte 0x80 (all-zero table) the
decoder reports `Malformed` with consumed count 0, not 1: the malformed byte
is not included in the consumed count. -/
theorem malformed_consumed_count_cex :
    SingleByteDecoder.decode_to_utf16 ⟨zeroTable⟩ [0x80] 1 =
      (.malformed 1, 0, 0, []) ∧ (0 : Nat) ≠ 1 :=
  ⟨by decide, by decide⟩

/-- C10 amended: whenever the decoder reports `Malformed`, the payload is
exactly 1, and the malformed byte is excluded from the consumed count: the
input byte at index `consumed` (still unread) is the offending one. -/
theorem malformed_payload_one_byte_excluded (table src : List Nat) (cap k c w : Nat)
    (o : List Nat)
    (h : SingleByteDecoder.decode_to_utf16 ⟨table⟩ src cap = (.malformed k, c, w, o)) :
    k = 1 ∧ ∃ b, src.get? c = some b ∧ 0x80 ≤ b ∧ table.getD (b - 0x80) 0 = 0 := by
  rw [SingleByteDecoder.decode_to_utf16] at h
  obtain ⟨hk, i, b, hc, hget, hb, hz⟩ :=
    decodeUtf16Go_malformed_shape table src cap 0 0 [] k c w o h
  refine ⟨hk, b, ?_, hb, hz⟩
  rw [hc]
  simpa using hget

/-- C10 amended witness: input `[0x41, 0x80]` over the all-zero table stops
with `Malformed(1)` at consumed count 1, and the byte at index 1 is 0x80. -/
theorem malformed_payload_one_byte_excluded_witness :
    SingleByteDecoder.decode_to_utf16 ⟨zeroTable⟩ [0x41, 0x80] 2 =
      (.malformed 1, 1, 1, [0x41]) ∧
    ((1 : Nat) = 1 ∧ ∃ b, ([0x41, 0x80] : List Nat).get? 1 = some b ∧ 0x80 ≤ b ∧
      zeroTable.getD (b - 0x80) 0 = 0) :=
  ⟨by decide,
    malformed_payload_one_byte_excluded zeroTable [0x41, 0x80] 2 1 1 1 [0x41]
      (by decide)⟩

end EncodingC
